import Mathlib

/-!
Verification of the `cycle` module of the `@edge/api-sdk` repository
(`src/lib/cycle.ts`): a recurring-job scheduler consisting of a Job
Supervisor (`prepare`), a Cycle Orchestrator (`run`) and a Sequencer
(`sequence`).

The TypeScript source is shallowly embedded as follows.

Job Supervisor (`prepare`): `prepare(job, before, after, onError)` returns a
zero-argument asynchronous runnable closing over the mutable `job`.  One
invocation of that runnable is embedded as the pure function `Cycle.prepare`
below, which threads the mutable `job` explicitly and records every
observable effect (callback invocations with the exact value passed, writes
to `job.status`, invocation of the task body) in a trace.  The externally
supplied task `doJob` is abstracted by its settlement (`taskResult`) and, when
a timeout race is configured, by which side of the race settles first
(`timerWins`).  The outcome of the invocation is `ok` (the promise resolves),
`thrown e` (the promise rejects with `e`), or `hang` (the promise never
settles: this case is reachable in the source, see `Cycle.prepare`).

Cycle Orchestrator (`run`): `run(jobs)` sets up timers on the Node event
loop.  It is embedded as a deterministic discrete-event simulation
(`Cycle.simulate`): the state (`Cycle.RunState`) holds the active timers
(interval timers, which the source stores in its `timeouts` array, and
one-shot defer timers, which it does not store), the tick log, the promise
settlement, the orchestrator's working copies of the jobs, and the caller's
original descriptors (which the source never writes).  Each job's `do`
function is abstracted by a behaviour `Cycle.Beh` giving the settlement of
the k-th tick of the j-th job.  Timers fire in (fireAt, creation id) order,
matching Node's timer ordering; a tick's rejection is handled right after
the synchronous block that produced it, matching microtask scheduling.

Sequencer: `sequence(...doFns)` is embedded as `Cycle.sequence`, mapping the
list of the input runnables' settlements to the number of runnables invoked
and the composed runnable's settlement.
-/

namespace Cycle

/-- Job status (`type Status = 'error' | 'pending' | 'running' | undefined`);
the `undefined` case is `Option.none` of `Option Status`. -/
inductive Status where
  | error
  | pending
  | running
deriving DecidableEq, Repr

/-- Errors observable from the cycle module: the two error classes it
declares, plus opaque task errors (the module never inspects those beyond
routing them, so a numeric code suffices to distinguish them). -/
inductive Err where
  | previousExecutionNotComplete (jobName : String) (status : Option Status)
  | timeoutError (jobName : String) (status : Option Status)
  | taskError (code : Nat)
deriving DecidableEq, Repr

/-- A Job descriptor (`type Job`).  The `do` field (the task body) is not a
field of the embedded record: it is externally supplied behaviour and is
abstracted per invocation (see `prepare`) or per job (see `Beh`). -/
structure Job where
  name : String
  interval : Nat
  defer : Option Nat := none
  status : Option Status := none
  timeout : Option Nat := none
deriving DecidableEq, Repr

/-- Truthiness of an optional number, as used by `if (job.timeout)` and
`if (job.defer)` in the source: `undefined` and `0` are falsy. -/
def truthy : Option Nat → Bool
  | none => false
  | some n => n != 0

/-- JobInfo (`type JobInfo = Pick<Job, 'name' | 'status'>`): the projection
of a Job to its name and status fields. -/
structure JobInfo where
  name : String
  status : Option Status
deriving DecidableEq, Repr

/-- The JobInfo projection of a Job. -/
def jobInfo (j : Job) : JobInfo := ⟨j.name, j.status⟩

/-- Presence of the three optional lifecycle callbacks handed to `prepare`.
The callbacks themselves are notifications (`void` return, contracted not to
throw); their invocations, with the exact value the source passes, are
recorded in the trace of a tick (see `Action`). -/
structure Callbacks where
  before : Bool
  after : Bool
  onError : Bool
deriving DecidableEq, Repr

/-- Observable actions of one invocation of a prepared runnable, in order:
callback invocations carry the exact value passed (`before(job)`,
`after(job)`, `onError(job, err)` all pass the job object itself), status
writes carry the value written, and `invokeTask` marks `doJob()` being
called. -/
inductive Action where
  | callBefore (j : Job)
  | setStatus (s : Status)
  | invokeTask
  | callAfter (j : Job)
  | callOnError (j : Job) (e : Err)
deriving DecidableEq, Repr

/-- Settlement of one invocation of a prepared runnable: the promise
resolves, rejects with an error, or never settles. -/
inductive Outcome where
  | ok
  | thrown (e : Err)
  | hang
deriving DecidableEq, Repr

/-- Result of one invocation of a prepared runnable: the job after the
invocation (its `status` is the only field the supervisor writes), the
ordered action trace, and the settlement. -/
structure TickResult where
  job : Job
  actions : List Action
  outcome : Outcome
deriving DecidableEq, Repr

/-- The `catch` block of `prepare`: set `status = error`, then route the
error to `onError` when present (the runnable resolves) or rethrow it. -/
def catchErr (j : Job) (acts : List Action) (cb : Callbacks) (e : Err) : TickResult :=
  let j2 := { j with status := some Status.error }
  let acts := acts ++ [Action.setStatus Status.error]
  if cb.onError then ⟨j2, acts ++ [Action.callOnError j2 e], Outcome.ok⟩
  else ⟨j2, acts, Outcome.thrown e⟩

/-- The success tail of `prepare`: set `status = pending`, then call
`after(job)` when present. -/
def succeedTick (j : Job) (acts : List Action) (cb : Callbacks) : TickResult :=
  let j2 := { j with status := some Status.pending }
  let acts := acts ++ [Action.setStatus Status.pending]
  if cb.after then ⟨j2, acts ++ [Action.callAfter j2], Outcome.ok⟩
  else ⟨j2, acts, Outcome.ok⟩

/-- One invocation of the runnable returned by `prepare(job, before, after,
onError)`, embedded from the source line by line.

`taskResult` abstracts the settlement of `doJob()`; `timerWins` abstracts,
when a timeout race is configured, whether the deadline timer settles the
race before the task does (it is ignored otherwise).

The race in the source is
`new Promise((res, rej) => { const t = setTimeout(() => rej(new TimeoutError(...)), job.timeout); doJob().then(res).finally(() => clearTimeout(t)) })`.
A rejection of `doJob()` is never forwarded to `rej` (only fulfilment
reaches `res`), and the `finally` clears the deadline timer, so when the
task fails before the timer elapses the outer promise never settles: the
invocation hangs with `status` left at `running` and no callback invoked.
This reachable `hang` outcome is embedded as-is. -/
def prepare (job : Job) (cb : Callbacks) (taskResult : Except Err Unit) (timerWins : Bool) :
    TickResult :=
  if job.status = some Status.running then
    let err := Err.previousExecutionNotComplete job.name job.status
    if cb.onError then ⟨job, [Action.callOnError job err], Outcome.ok⟩
    else ⟨job, [], Outcome.thrown err⟩
  else
    let acts := if cb.before then [Action.callBefore job] else []
    let j1 := { job with status := some Status.running }
    let acts := acts ++ [Action.setStatus Status.running]
    if truthy job.timeout then
      let acts := acts ++ [Action.invokeTask]
      if timerWins then
        catchErr j1 acts cb (Err.timeoutError j1.name j1.status)
      else
        match taskResult with
        | Except.ok _ => succeedTick j1 acts cb
        | Except.error _ => ⟨j1, acts, Outcome.hang⟩
    else
      let acts := acts ++ [Action.invokeTask]
      match taskResult with
      | Except.ok _ => succeedTick j1 acts cb
      | Except.error e => catchErr j1 acts cb e

/-- Sequential invocations of a prepared runnable on the same job: each
element of `inputs` supplies the `taskResult` and `timerWins` abstraction of
one invocation, and the mutated job is threaded to the next invocation. -/
def seqTicks (cb : Callbacks) : Job → List (Except Err Unit × Bool) → Job × List TickResult
  | job, [] => (job, [])
  | job, r :: rs =>
    let t := prepare job cb r.1 r.2
    let p := seqTicks cb t.job rs
    (p.1, t :: p.2)

/-- The Sequencer (`sequence(...doFns)`): given the settlements of the input
runnables, returns how many of them one invocation of the composed runnable
invokes, together with the composed runnable's settlement.  The source loop
`for (let i = 0; i < doFns.length; i++) await doFns[i]()` invokes the
runnables in order and exits with the first rejection. -/
def sequence : List (Except Err Unit) → Nat × Except Err Unit
  | [] => (0, Except.ok ())
  | r :: rs =>
    match r with
    | Except.error e => (1, Except.error e)
    | Except.ok _ =>
      let p := sequence rs
      (p.1 + 1, p.2)

/-- Behaviour of the jobs' externally supplied `do` functions inside `run`:
`beh j k` is the settlement of the k-th tick of the job at index `j` of the
list passed to `run`.  The orchestrator calls `job.do()` directly, without
applying the supervisor's overlap or timeout logic, so the task is opaque
here. -/
def Beh := Nat → Nat → Except Err Unit

/-- An active Node timer created by `run`.  Interval timers
(`isInterval = true`) are the handles the source pushes onto its `timeouts`
array; defer timers (`isInterval = false`) are the anonymous
`setTimeout(startJob, job.defer)` handles, which the source does not store
anywhere.  For a defer timer, `period` records the captured job copy's
`interval`, which `startJob` reads when the timer fires.  `id` is the
creation sequence number; Node fires timers in (due time, creation) order. -/
structure Timer where
  id : Nat
  jobIdx : Nat
  fireAt : Nat
  isInterval : Bool
  period : Nat
deriving DecidableEq, Repr

/-- State of one invocation of `run(jobs)`: the virtual clock, the next
timer creation id, the active timers, the log of ticks as
(time, job index, per-job tick count) triples (most recent first), the
per-job tick counts, the settlement of the promise `run` returned
(`rejected` is the argument of the first `reject` call; `resolved` records
whether `resolve` was ever called — the source never calls it), the
orchestrator's working copies of the jobs, and the caller's original
descriptors (present to express that `run` never writes them). -/
structure RunState where
  now : Nat
  nextId : Nat
  timers : List Timer
  ticks : List (Nat × Nat × Nat)
  counts : List Nat
  rejected : Option Err
  resolved : Bool
  copies : List Job
  orig : List Job
deriving DecidableEq, Repr

/-- The `fail` closure of `run`: `timeouts.forEach(clearInterval)` cancels
every interval handle ever pushed (pending defer timers are not in that
array and survive), then `reject(err)` settles the promise — a no-op when it
is already settled, so only the first error is reported. -/
def fail (e : Err) (s : RunState) : RunState :=
  { s with
    timers := s.timers.filter (fun t => !t.isInterval)
    rejected := match s.rejected with
      | some e0 => some e0
      | none => some e }

/-- One execution of a job's tick inside `run` (`job.do().catch(fail)`):
log the tick, bump the job's tick count, and report the settlement of
`do()` so the enclosing block can route a rejection to `fail`. -/
def doTick (beh : Beh) (j : Nat) (s : RunState) : Option Err × RunState :=
  let k := s.counts.getD j 0
  ((match beh j k with
    | Except.ok _ => none
    | Except.error e => some e),
   { s with ticks := (s.now, j, k) :: s.ticks, counts := s.counts.set j (k + 1) })

/-- The `startJob` closure of `run`: push a repeating interval timer for the
job onto the `timeouts` array, then tick once immediately. -/
def startJob (beh : Beh) (j : Nat) (interval : Nat) (s : RunState) : Option Err × RunState :=
  let t : Timer := ⟨s.nextId, j, s.now + interval, true, interval⟩
  let s := { s with timers := s.timers ++ [t], nextId := s.nextId + 1 }
  doTick beh j s

/-- Initial state of `run(jobs)`:
`jobs.map(job => ({ ...job, status: 'pending' }))` creates the working
copies; no timer exists yet and the returned promise is unsettled. -/
def initState (jobs : List Job) : RunState :=
  { now := 0
    nextId := 0
    timers := []
    ticks := []
    counts := List.replicate jobs.length 0
    rejected := none
    resolved := false
    copies := jobs.map (fun j => { j with status := some Status.pending })
    orig := jobs }

/-- The `forEach` of `run` over the enumerated working copies: a copy with a
truthy `defer` gets a one-shot defer timer (`setTimeout(startJob,
job.defer)`, handle not stored); any other copy is started immediately.
Rejections of the synchronous setup ticks are collected in order; their
`catch(fail)` handlers run as microtasks only after the whole synchronous
setup block, so they are returned to be processed afterwards. -/
def setupGo (beh : Beh) : List (Nat × Job) → RunState → List Err × RunState
  | [], s => ([], s)
  | (j, job) :: rest, s =>
    if truthy job.defer then
      let t : Timer := ⟨s.nextId, j, s.now + job.defer.getD 0, false, job.interval⟩
      setupGo beh rest { s with timers := s.timers ++ [t], nextId := s.nextId + 1 }
    else
      let p := startJob beh j job.interval s
      let q := setupGo beh rest p.2
      (match p.1 with
        | some e => e :: q.1
        | none => q.1,
       q.2)

/-- Enumeration of the working copies with their indices, in `forEach`
order: the job at position `i` of the list is paired with index `k + i`. -/
def enumJobs : Nat → List Job → List (Nat × Job)
  | _, [] => []
  | k, j :: js => (k, j) :: enumJobs (k + 1) js

/-- The synchronous part of `run(jobs)`: create the working copies and run
the `forEach` setup block. -/
def setupScan (beh : Beh) (jobs : List Job) : List Err × RunState :=
  let s0 := initState jobs
  setupGo beh (enumJobs 0 s0.copies) s0

/-- State after `run(jobs)` returns control to the event loop: the
synchronous setup block followed by the queued `catch(fail)` microtasks of
any setup ticks that rejected. -/
def setup (beh : Beh) (jobs : List Job) : RunState :=
  let p := setupScan beh jobs
  p.1.foldl (fun s e => fail e s) p.2

/-- Strict ordering of timers by (due time, creation id). -/
def timerLt (a b : Timer) : Bool :=
  a.fireAt < b.fireAt || (a.fireAt == b.fireAt && a.id < b.id)

/-- The next timer the event loop fires: the active timer least in
(due time, creation id) order. -/
def minTimer : List Timer → Option Timer
  | [] => none
  | t :: ts =>
    match minTimer ts with
    | none => some t
    | some u => if timerLt u t then some u else some t

/-- Routing of a tick's settlement (`job.do().catch(fail)`): a rejection
runs `fail` in the microtask right after the callback block that produced
it; a fulfilment changes nothing. -/
def route (p : Option Err × RunState) : RunState :=
  match p.1 with
  | some e => fail e p.2
  | none => p.2

/-- One event-loop step of `run`: fire the next due timer.  An interval
timer reschedules itself by its period and runs `tick`; a defer timer is
one-shot and runs `startJob` with the captured job's interval. -/
def step (beh : Beh) (s : RunState) : RunState :=
  match minTimer s.timers with
  | none => s
  | some t =>
    let s := { s with now := t.fireAt }
    if t.isInterval then
      let s := { s with
        timers := s.timers.map (fun u =>
          if u.id = t.id then { u with fireAt := u.fireAt + u.period } else u) }
      route (doTick beh t.jobIdx s)
    else
      let s := { s with timers := s.timers.filter (fun u => u.id ≠ t.id) }
      route (startJob beh t.jobIdx t.period s)

/-- The discrete-event semantics of `run(jobs)`: the state after the
synchronous setup and `fuel` event-loop steps. -/
def simulate (beh : Beh) (jobs : List Job) : Nat → RunState
  | 0 => setup beh jobs
  | n + 1 => step beh (simulate beh jobs n)

instance : Inhabited Job := ⟨⟨"", 0, none, none, none⟩⟩

/-! Helper lemmas about one invocation of a prepared runnable. -/

/-- Evaluation of a non-blocked invocation without a timeout whose task
succeeds: the full success trace and the transition to `pending`. -/
theorem prepare_ok_no_timeout (job : Job) (cb : Callbacks) (w : Bool)
    (hto : truthy job.timeout = false) (hst : job.status ≠ some Status.running) :
    prepare job cb (Except.ok ()) w =
      ⟨{ job with status := some Status.pending },
       (if cb.before then [Action.callBefore job] else []) ++
         [Action.setStatus Status.running, Action.invokeTask, Action.setStatus Status.pending] ++
         (if cb.after then [Action.callAfter { job with status := some Status.pending }] else []),
       Outcome.ok⟩ := by
  simp only [prepare, if_neg hst, hto, Bool.false_eq_true, if_false, succeedTick]
  cases hb : cb.before <;> cases ha : cb.after <;> simp

/-- An invocation that is not blocked by the overlap guard always invokes
the task body, as the third element of its trace. -/
theorem prepare_not_running_actions (job : Job) (cb : Callbacks) (r : Except Err Unit) (w : Bool)
    (hst : job.status ≠ some Status.running) :
    ∃ rest, (prepare job cb r w).actions =
      (if cb.before then [Action.callBefore job] else []) ++
        [Action.setStatus Status.running, Action.invokeTask] ++ rest := by
  simp only [prepare, if_neg hst]
  cases hto : truthy job.timeout <;> cases w <;> cases r <;>
    simp [catchErr, succeedTick] <;>
    (try cases cb.onError) <;> (try cases cb.after) <;> simp

/-- C1 (code bug evaluation): when a timeout is configured and the task
fails before the deadline timer elapses, the prepared runnable does not set
`status = error` and does not route the error: the race promise is never
settled (the task's rejection is not forwarded to `rej`, and the `finally`
cancels the deadline timer), so the invocation hangs with `status` stuck at
`running` and `onError` never invoked.  The second conjunct shows the same
scenario without a timeout behaving as the claim states (status `error`,
`onError` invoked exactly once with the task's error). -/
theorem prepare_timeout_swallows_task_failure :
    prepare { name := "j", interval := 100, status := some Status.pending, timeout := some 50 }
        ⟨false, false, true⟩ (Except.error (Err.taskError 0)) false =
      ⟨{ name := "j", interval := 100, status := some Status.running, timeout := some 50 },
       [Action.setStatus Status.running, Action.invokeTask], Outcome.hang⟩ ∧
    prepare { name := "j", interval := 100, status := some Status.pending, timeout := none }
        ⟨false, false, true⟩ (Except.error (Err.taskError 0)) false =
      ⟨{ name := "j", interval := 100, status := some Status.error, timeout := none },
       [Action.setStatus Status.running, Action.invokeTask, Action.setStatus Status.error,
        Action.callOnError
          { name := "j", interval := 100, status := some Status.error, timeout := none }
          (Err.taskError 0)],
       Outcome.ok⟩ :=
  ⟨rfl, rfl⟩

/-- C3: an invocation while `job.status` is `running` never invokes the task
body and leaves the job unchanged; a `PreviousExecutionNotCompleteError`
carrying the job name and the last-observed status (`running`) is passed to
`onError` when supplied (and the runnable resolves) or thrown when not.  Any
status other than `running` does not block: the task body is invoked. -/
theorem prepare_overlap_guard (job : Job) (cb : Callbacks) (r : Except Err Unit) (w : Bool) :
    (job.status = some Status.running →
      (prepare job cb r w).job = job ∧
      Action.invokeTask ∉ (prepare job cb r w).actions ∧
      (cb.onError = true →
        (prepare job cb r w).outcome = Outcome.ok ∧
        (prepare job cb r w).actions =
          [Action.callOnError job
            (Err.previousExecutionNotComplete job.name (some Status.running))]) ∧
      (cb.onError = false →
        (prepare job cb r w).actions = [] ∧
        (prepare job cb r w).outcome =
          Outcome.thrown (Err.previousExecutionNotComplete job.name (some Status.running)))) ∧
    (job.status ≠ some Status.running → Action.invokeTask ∈ (prepare job cb r w).actions) := by
  constructor
  · intro h
    simp only [prepare, h, if_pos]
    cases ho : cb.onError <;> simp [h]
  · intro h
    obtain ⟨rest, hrest⟩ := prepare_not_running_actions job cb r w h
    rw [hrest]
    simp

/-- C3 witness at concrete inputs: a `running` job is blocked (no task
invocation), a `pending` job is not. -/
theorem prepare_overlap_guard_witness :
    Action.invokeTask ∉
      (prepare { name := "r", interval := 1, status := some Status.running }
        ⟨true, true, true⟩ (Except.ok ()) false).actions ∧
    Action.invokeTask ∈
      (prepare { name := "r", interval := 1, status := some Status.pending }
        ⟨true, true, true⟩ (Except.ok ()) false).actions :=
  ⟨((prepare_overlap_guard { name := "r", interval := 1, status := some Status.running }
      ⟨true, true, true⟩ (Except.ok ()) false).1 rfl).2.1,
   (prepare_overlap_guard { name := "r", interval := 1, status := some Status.pending }
      ⟨true, true, true⟩ (Except.ok ()) false).2 (by decide)⟩

/-- C4: when a timeout is configured and the deadline timer elapses before
the task settles, the invocation fails with `TimeoutError` carrying the job
name and the status at the time of the timeout (`running`), and
`job.status` is then set to `error` (the error goes to `onError` instead
when one is supplied).  The task body was invoked but is not terminated:
the result of the invocation is independent of the task's own settlement
(last conjunct), which is exactly the sense in which the task continues
unobserved in the background. -/
theorem prepare_timeout_elapsed (job : Job) (cb : Callbacks) (r r2 : Except Err Unit)
    (hto : truthy job.timeout = true) (hst : job.status ≠ some Status.running) :
    (prepare job cb r true).job.status = some Status.error ∧
    (cb.onError = false →
      (prepare job cb r true).outcome =
        Outcome.thrown (Err.timeoutError job.name (some Status.running))) ∧
    (cb.onError = true →
      (prepare job cb r true).outcome = Outcome.ok ∧
      Action.callOnError { job with status := some Status.error }
          (Err.timeoutError job.name (some Status.running)) ∈ (prepare job cb r true).actions) ∧
    Action.invokeTask ∈ (prepare job cb r true).actions ∧
    prepare job cb r true = prepare job cb r2 true := by
  simp only [prepare, if_neg hst, hto, if_pos, catchErr]
  cases ho : cb.onError <;> cases hb : cb.before <;> simp

/-- C4 witness at a concrete input: a timed-out invocation ends with
status `error`. -/
theorem prepare_timeout_elapsed_witness :
    (prepare { name := "t", interval := 1, timeout := some 50 }
      ⟨false, false, false⟩ (Except.ok ()) true).job.status = some Status.error :=
  (prepare_timeout_elapsed { name := "t", interval := 1, timeout := some 50 }
    ⟨false, false, false⟩ (Except.ok ()) (Except.ok ()) (by decide) (by decide)).1

/-- C5 counterexample: the value handed to the `before` callback is not a
projection of the job to its name and status fields.  Two jobs with equal
`JobInfo` projections but different `interval` scheduling parameters are
passed distinguishable values — the source passes the job object itself
(`before(job)`), so the callback receives (and, the object being the live
mutable job, can mutate) the scheduling parameters. -/
theorem prepare_jobinfo_projection_refuted :
    jobInfo { name := "a", interval := 1, status := some Status.pending } =
      jobInfo { name := "a", interval := 2, status := some Status.pending } ∧
    (prepare { name := "a", interval := 1, status := some Status.pending }
        ⟨true, false, false⟩ (Except.ok ()) false).actions.head? =
      some (Action.callBefore { name := "a", interval := 1, status := some Status.pending }) ∧
    (prepare { name := "a", interval := 2, status := some Status.pending }
        ⟨true, false, false⟩ (Except.ok ()) false).actions.head? =
      some (Action.callBefore { name := "a", interval := 2, status := some Status.pending }) ∧
    Action.callBefore { name := "a", interval := 1, status := some Status.pending } ≠
      Action.callBefore { name := "a", interval := 2, status := some Status.pending } := by
  refine ⟨rfl, rfl, rfl, ?_⟩
  decide

/-- C5 (amended): each lifecycle callback — `before`, `after` and `onError`
alike — is passed the job object itself: statically typed as `JobInfo`, but
at runtime the full job record, scheduling parameters included.  The first
action of a non-blocked invocation with a `before` callback is `before`
applied to the job itself; the last action of a successful no-timeout
invocation with an `after` callback is `after` applied to the job itself
(status `pending`); an overlap-blocked invocation's only action is `onError`
applied to the job itself and the overlap error; and a failing no-timeout
invocation's last action is `onError` applied to the job itself (status
`error`) and the task's error. -/
theorem prepare_passes_job_to_callbacks (job : Job) (cb : Callbacks) (r : Except Err Unit)
    (w : Bool) (e : Err) :
    (cb.before = true → job.status ≠ some Status.running →
      (prepare job cb r w).actions.head? = some (Action.callBefore job)) ∧
    (cb.after = true → job.status ≠ some Status.running → truthy job.timeout = false →
      (prepare job cb (Except.ok ()) w).actions.getLast? =
        some (Action.callAfter { job with status := some Status.pending })) ∧
    (cb.onError = true → job.status = some Status.running →
      (prepare job cb r w).actions =
        [Action.callOnError job (Err.previousExecutionNotComplete job.name job.status)]) ∧
    (cb.onError = true → job.status ≠ some Status.running → truthy job.timeout = false →
      (prepare job cb (Except.error e) w).actions.getLast? =
        some (Action.callOnError { job with status := some Status.error } e)) := by
  refine ⟨?_, ?_, ?_, ?_⟩
  · intro hb hst
    obtain ⟨rest, hrest⟩ := prepare_not_running_actions job cb r w hst
    rw [hrest, hb]
    simp
  · intro ha hst hto
    rw [prepare_ok_no_timeout job cb w hto hst]
    simp [ha]
  · intro ho hrun
    simp [prepare, hrun, ho]
  · intro ho hst hto
    simp only [prepare, if_neg hst, hto, Bool.false_eq_true, if_false, catchErr, ho, if_true]
    cases hb : cb.before <;> simp

/-- C5 amended-claim witness at concrete inputs: `before` and `after`
receive the full job on a successful tick, `onError` receives the full job
both when the overlap guard rejects and when the task fails. -/
theorem prepare_passes_job_to_callbacks_witness :
    (prepare { name := "b", interval := 1 } ⟨true, true, true⟩
        (Except.ok ()) false).actions.head? =
      some (Action.callBefore { name := "b", interval := 1 }) ∧
    (prepare { name := "b", interval := 1 } ⟨true, true, true⟩
        (Except.ok ()) false).actions.getLast? =
      some (Action.callAfter { name := "b", interval := 1, status := some Status.pending }) ∧
    (prepare { name := "r", interval := 1, status := some Status.running } ⟨true, true, true⟩
        (Except.ok ()) false).actions =
      [Action.callOnError { name := "r", interval := 1, status := some Status.running }
        (Err.previousExecutionNotComplete "r" (some Status.running))] ∧
    (prepare { name := "b", interval := 1 } ⟨true, true, true⟩
        (Except.error (Err.taskError 1)) false).actions.getLast? =
      some (Action.callOnError { name := "b", interval := 1, status := some Status.error }
        (Err.taskError 1)) :=
  ⟨(prepare_passes_job_to_callbacks { name := "b", interval := 1 } ⟨true, true, true⟩
      (Except.ok ()) false (Err.taskError 1)).1 rfl (by decide),
   (prepare_passes_job_to_callbacks { name := "b", interval := 1 } ⟨true, true, true⟩
      (Except.ok ()) false (Err.taskError 1)).2.1 rfl (by decide) rfl,
   (prepare_passes_job_to_callbacks { name := "r", interval := 1, status := some Status.running }
      ⟨true, true, true⟩ (Except.ok ()) false (Err.taskError 1)).2.2.1 rfl rfl,
   (prepare_passes_job_to_callbacks { name := "b", interval := 1 } ⟨true, true, true⟩
      (Except.ok ()) false (Err.taskError 1)).2.2.2 rfl (by decide) rfl⟩

/-- Helper for C8: when every step of the sequence succeeds, all steps are
invoked and the composed runnable resolves. -/
theorem sequence_all_ok (l : List (Except Err Unit)) (h : ∀ r ∈ l, r = Except.ok ()) :
    Cycle.sequence l = (l.length, Except.ok ()) := by
  induction l with
  | nil => rfl
  | cons r rs ih =>
    have hr := h r (List.mem_cons_self r rs)
    subst hr
    simp [Cycle.sequence, ih (fun x hx => h x (List.mem_cons_of_mem _ hx))]

/-- C8: the composed runnable of `sequence` invokes the input runnables in
order and sequentially; on an empty input it invokes none and resolves; when
all steps succeed it invokes all of them and resolves; when a step fails
after a prefix of successful steps, exactly the steps up to and including
the failing one are invoked (`pre.length + 1` of them — none of the
remaining steps runs) and the composed runnable fails with exactly that
step's error. -/
theorem sequence_spec (pre post : List (Except Err Unit)) (e : Err)
    (hpre : ∀ r ∈ pre, r = Except.ok ()) :
    Cycle.sequence [] = (0, Except.ok ()) ∧
    Cycle.sequence pre = (pre.length, Except.ok ()) ∧
    Cycle.sequence (pre ++ Except.error e :: post) = (pre.length + 1, Except.error e) := by
  refine ⟨rfl, sequence_all_ok pre hpre, ?_⟩
  induction pre with
  | nil => rfl
  | cons r rs ih =>
    have hr := hpre r (List.mem_cons_self r rs)
    subst hr
    have h2 := ih (fun x hx => hpre x (List.mem_cons_of_mem _ hx))
    simp only [List.cons_append, Cycle.sequence, List.append_eq, h2, List.length_cons]

/-- C6: for a job with no timeout whose task always succeeds, any finite
number of sequential invocations of the prepared runnable all resolve
(nothing is ever raised), no `onError` call — and in particular no
`PreviousExecutionNotCompleteError` — ever occurs, and every invocation's
trace is exactly: `before` (if supplied) on the pre-tick job, then
`status := running`, the task invocation, `status := pending`, then `after`
(if supplied) on the job with status `pending`.  Sequential means the
invocations do not overlap, so the starting status is not `running`. -/
theorem prepare_repeated_success (job : Job) (cb : Callbacks)
    (inputs : List (Except Err Unit × Bool))
    (hto : job.timeout = none) (hst : job.status ≠ some Status.running)
    (hok : ∀ p ∈ inputs, p.1 = Except.ok ()) :
    ∀ t ∈ (seqTicks cb job inputs).2,
      t.outcome = Outcome.ok ∧
      t.job.status = some Status.pending ∧
      (∀ j e, Action.callOnError j e ∉ t.actions) ∧
      ∃ j0 : Job, j0.status ≠ some Status.running ∧
        t.actions =
          (if cb.before then [Action.callBefore j0] else []) ++
            [Action.setStatus Status.running, Action.invokeTask,
              Action.setStatus Status.pending] ++
            (if cb.after then [Action.callAfter { j0 with status := some Status.pending }]
              else []) := by
  induction inputs generalizing job with
  | nil => intro t ht; exact absurd ht (List.not_mem_nil t)
  | cons p ps ih =>
    obtain ⟨r1, w⟩ := p
    have hp : r1 = Except.ok () := hok (r1, w) (List.mem_cons_self _ _)
    subst hp
    have htr : truthy job.timeout = false := by rw [hto]; rfl
    have hev := prepare_ok_no_timeout job cb w htr hst
    intro t ht
    simp only [seqTicks] at ht
    rcases List.mem_cons.mp ht with h1 | h2
    · subst h1
      rw [hev]
      refine ⟨rfl, rfl, ?_, job, hst, rfl⟩
      intro j e
      cases hb : cb.before <;> cases ha : cb.after <;> simp
    · have hjob : (prepare job cb (Except.ok ()) w).job =
          { job with status := some Status.pending } := by rw [hev]
      refine ih (prepare job cb (Except.ok ()) w).job ?_ ?_
        (fun q hq => hok q (List.mem_cons_of_mem _ hq)) t h2
      · rw [hjob]; exact hto
      · rw [hjob]; simp

/-- C6 witness at a concrete input: one successful tick of a fresh job
resolves and leaves status `pending`. -/
theorem prepare_repeated_success_witness :
    (prepare { name := "s", interval := 1 } ⟨true, true, true⟩
        (Except.ok ()) false).outcome = Outcome.ok ∧
    (prepare { name := "s", interval := 1 } ⟨true, true, true⟩
        (Except.ok ()) false).job.status = some Status.pending := by
  have h := prepare_repeated_success { name := "s", interval := 1 } ⟨true, true, true⟩
    [(Except.ok (), false)] rfl (by decide)
    (by intro p hp; rw [List.mem_singleton.mp hp])
  have h2 := h (prepare { name := "s", interval := 1 } ⟨true, true, true⟩ (Except.ok ()) false)
    (List.mem_singleton.mpr rfl)
  exact ⟨h2.1, h2.2.1⟩

/-- C8 witness: `sequence(a, b, c)` with `b` failing invokes two steps and
fails with the error of `b`. -/
theorem sequence_spec_witness :
    Cycle.sequence [Except.ok (), Except.error (Err.taskError 3), Except.ok ()] =
      (2, Except.error (Err.taskError 3)) :=
  (sequence_spec [Except.ok ()] [Except.ok ()] (Err.taskError 3)
    (fun _ hr => List.mem_singleton.mp hr)).2.2

/-! Frame lemmas for the orchestrator semantics: the fields of `RunState`
each transition does not touch. -/

theorem fail_frame (e : Err) (s : RunState) :
    (fail e s).orig = s.orig ∧ (fail e s).copies = s.copies ∧
    (fail e s).resolved = s.resolved ∧ (fail e s).ticks = s.ticks ∧
    (fail e s).now = s.now :=
  ⟨rfl, rfl, rfl, rfl, rfl⟩

theorem doTick_frame (beh : Beh) (j : Nat) (s : RunState) :
    (doTick beh j s).2.orig = s.orig ∧ (doTick beh j s).2.copies = s.copies ∧
    (doTick beh j s).2.resolved = s.resolved ∧ (doTick beh j s).2.timers = s.timers ∧
    (doTick beh j s).2.now = s.now :=
  ⟨rfl, rfl, rfl, rfl, rfl⟩

theorem startJob_frame (beh : Beh) (j interval : Nat) (s : RunState) :
    (startJob beh j interval s).2.orig = s.orig ∧
    (startJob beh j interval s).2.copies = s.copies ∧
    (startJob beh j interval s).2.resolved = s.resolved ∧
    (startJob beh j interval s).2.now = s.now :=
  ⟨rfl, rfl, rfl, rfl⟩

theorem route_frame (p : Option Err × RunState) :
    (route p).orig = p.2.orig ∧ (route p).copies = p.2.copies ∧
    (route p).resolved = p.2.resolved ∧ (route p).ticks = p.2.ticks ∧
    (route p).now = p.2.now := by
  obtain ⟨e?, s2⟩ := p
  cases e? <;> exact ⟨rfl, rfl, rfl, rfl, rfl⟩

theorem step_frame (beh : Beh) (s : RunState) :
    (step beh s).orig = s.orig ∧ (step beh s).copies = s.copies ∧
    (step beh s).resolved = s.resolved := by
  unfold step
  split
  · exact ⟨rfl, rfl, rfl⟩
  · split
    · exact ⟨(route_frame _).1, (route_frame _).2.1, (route_frame _).2.2.1⟩
    · exact ⟨(route_frame _).1, (route_frame _).2.1, (route_frame _).2.2.1⟩

theorem setupGo_frame (beh : Beh) :
    ∀ (l : List (Nat × Job)) (s : RunState),
      (setupGo beh l s).2.orig = s.orig ∧ (setupGo beh l s).2.copies = s.copies ∧
      (setupGo beh l s).2.resolved = s.resolved ∧ (setupGo beh l s).2.now = s.now := by
  intro l
  induction l with
  | nil => intro s; exact ⟨rfl, rfl, rfl, rfl⟩
  | cons p rest ih =>
    intro s
    obtain ⟨i, job⟩ := p
    simp only [setupGo]
    split
    · exact ih _
    · exact ih _

theorem foldl_fail_frame (es : List Err) :
    ∀ s : RunState,
      (es.foldl (fun s e => fail e s) s).orig = s.orig ∧
      (es.foldl (fun s e => fail e s) s).copies = s.copies ∧
      (es.foldl (fun s e => fail e s) s).resolved = s.resolved ∧
      (es.foldl (fun s e => fail e s) s).ticks = s.ticks := by
  induction es with
  | nil => intro s; exact ⟨rfl, rfl, rfl, rfl⟩
  | cons e rest ih => intro s; exact ih (fail e s)

/-- C9: `run` operates on its own working copies, each the caller's
descriptor with `status` replaced by `pending`, and at no point of the run
does it write any field of the caller's original Job descriptors: after the
setup and any number of event-loop steps, the originals are exactly the
input list and the working copies are exactly the pending-seeded copies
made at setup. -/
theorem run_does_not_mutate_descriptors (beh : Beh) (jobs : List Job) (fuel : Nat) :
    (simulate beh jobs fuel).orig = jobs ∧
    (simulate beh jobs fuel).copies =
      jobs.map (fun j => { j with status := some Status.pending }) := by
  induction fuel with
  | zero =>
    have h1 := foldl_fail_frame (setupScan beh jobs).1 (setupScan beh jobs).2
    have h2 := setupGo_frame beh (enumJobs 0 (initState jobs).copies) (initState jobs)
    constructor
    · show (setup beh jobs).orig = jobs
      rw [setup]
      exact h1.1.trans h2.1
    · show (setup beh jobs).copies = _
      rw [setup]
      exact (h1.2.1.trans h2.2.1)
  | succ n ih =>
    have h := step_frame beh (simulate beh jobs n)
    exact ⟨h.1.trans ih.1, h.2.1.trans ih.2⟩

/-- Helper for C10: the empty run creates no timers and performs no
transitions: every state of `run([])` is the initial state. -/
theorem simulate_nil (beh : Beh) (fuel : Nat) :
    simulate beh [] fuel = initState [] := by
  induction fuel with
  | zero => rfl
  | succ n ih => rw [simulate, ih]; rfl

/-- C10: the promise returned by `run` never resolves successfully
(`resolve` is never invoked, for any input and any number of event-loop
steps); it either stays unsettled or rejects with a job failure.  For the
empty job list, no timer is ever created, nothing ever ticks, and the
promise never settles at all: it neither resolves nor rejects. -/
theorem run_never_resolves (beh : Beh) (jobs : List Job) (fuel : Nat) :
    (simulate beh jobs fuel).resolved = false ∧
    (jobs = [] →
      (simulate beh jobs fuel).timers = [] ∧
      (simulate beh jobs fuel).rejected = none ∧
      (simulate beh jobs fuel).ticks = []) := by
  constructor
  · induction fuel with
    | zero =>
      have h1 := foldl_fail_frame (setupScan beh jobs).1 (setupScan beh jobs).2
      have h2 := setupGo_frame beh (enumJobs 0 (initState jobs).copies) (initState jobs)
      show (setup beh jobs).resolved = false
      rw [setup]
      exact h1.2.2.1.trans h2.2.2.1
    | succ n ih =>
      exact ((step_frame beh (simulate beh jobs n)).2.2).trans ih
  · intro h
    subst h
    rw [simulate_nil]
    exact ⟨rfl, rfl, rfl⟩

/-- C10 witness: for the empty job list, after several event-loop steps the
promise is unsettled and no timer exists. -/
theorem run_never_resolves_witness :
    (simulate (fun _ _ => Except.ok ()) [] 3).resolved = false ∧
    (simulate (fun _ _ => Except.ok ()) [] 3).timers = [] ∧
    (simulate (fun _ _ => Except.ok ()) [] 3).rejected = none := by
  have h := run_never_resolves (fun _ _ => Except.ok ()) [] 3
  exact ⟨h.1, (h.2 rfl).1, (h.2 rfl).2.1⟩

/-- C2 (code bug evaluation): the moment job A's first tick rejects, `fail`
clears every interval handle in the `timeouts` array and rejects the run's
promise with that error — but job B's pending defer timer is not in that
array and survives: at time 5, after the promise has already rejected at
time 0, B's `startJob` fires anyway, arms a fresh interval timer, and B
receives a tick.  Ticks therefore do occur after the failing tick, refuting
the claim for jobs whose defer delay has not yet elapsed. -/
theorem run_defer_timer_survives_failure :
    (simulate (fun j _ => if j = 0 then Except.error (Err.taskError 7) else Except.ok ())
        [{ name := "A", interval := 1 }, { name := "B", interval := 1, defer := some 5 }]
        0).rejected = some (Err.taskError 7) ∧
    (simulate (fun j _ => if j = 0 then Except.error (Err.taskError 7) else Except.ok ())
        [{ name := "A", interval := 1 }, { name := "B", interval := 1, defer := some 5 }]
        0).ticks = [(0, 0, 0)] ∧
    (5, 1, 0) ∈
      (simulate (fun j _ => if j = 0 then Except.error (Err.taskError 7) else Except.ok ())
        [{ name := "A", interval := 1 }, { name := "B", interval := 1, defer := some 5 }]
        1).ticks ∧
    (simulate (fun j _ => if j = 0 then Except.error (Err.taskError 7) else Except.ok ())
        [{ name := "A", interval := 1 }, { name := "B", interval := 1, defer := some 5 }]
        1).timers =
      [{ id := 2, jobIdx := 1, fireAt := 6, isInterval := true, period := 1 }] := by
  decide

/-! Support lemmas for the defer-scheduling claim. -/

theorem enumJobs_mem : ∀ (l : List Job) (k i : Nat) (job : Job),
    (i, job) ∈ enumJobs k l → k ≤ i ∧ l.get? (i - k) = some job := by
  intro l
  induction l with
  | nil => intro k i job h; exact absurd h (List.not_mem_nil _)
  | cons x xs ih =>
    intro k i job h
    rcases List.mem_cons.mp h with heq | hmem
    · injection heq with h1 h2
      subst h1; subst h2
      exact ⟨Nat.le_refl _, by simp⟩
    · obtain ⟨hk, hget⟩ := ih (k + 1) i job hmem
      refine ⟨Nat.le_of_succ_le hk, ?_⟩
      have : i - k = (i - (k + 1)) + 1 := by omega
      rw [this]
      simpa using hget

theorem enumJobs_mem_of_get? : ∀ (l : List Job) (k i : Nat) (job : Job),
    l.get? i = some job → (k + i, job) ∈ enumJobs k l := by
  intro l
  induction l with
  | nil => intro k i job h; simp at h
  | cons x xs ih =>
    intro k i job h
    cases i with
    | zero =>
      simp only [List.get?] at h
      injection h with h
      subst h
      exact List.mem_cons_self _ _
    | succ n =>
      simp only [List.get?] at h
      have := ih (k + 1) n job h
      have harith : k + (n + 1) = (k + 1) + n := by omega
      rw [harith]
      exact List.mem_cons_of_mem _ this

theorem enumJobs_pairwise : ∀ (l : List Job) (k : Nat),
    List.Pairwise (fun a b : Nat × Job => a.1 < b.1) (enumJobs k l) := by
  intro l
  induction l with
  | nil => intro k; exact List.Pairwise.nil
  | cons x xs ih =>
    intro k
    refine List.pairwise_cons.mpr ⟨?_, ih (k + 1)⟩
    intro b hb
    have := (enumJobs_mem xs (k + 1) b.1 b.2 (by simpa using hb)).1
    simpa using Nat.lt_of_succ_le this

theorem minTimer_mem : ∀ (ts : List Timer) (t : Timer), minTimer ts = some t → t ∈ ts := by
  intro ts
  induction ts with
  | nil => intro t h; simp [minTimer] at h
  | cons x xs ih =>
    intro t h
    rw [minTimer] at h
    rcases hm : minTimer xs with _ | u
    · simp only [hm] at h
      exact (Option.some.inj h) ▸ List.mem_cons_self _ _
    · simp only [hm] at h
      by_cases hlt : timerLt u x = true
      · rw [if_pos hlt] at h
        exact (Option.some.inj h) ▸ List.mem_cons_of_mem _ (ih u hm)
      · rw [if_neg hlt] at h
        exact (Option.some.inj h) ▸ List.mem_cons_self _ _

theorem setupGo_ticks_mem (beh : Beh) : ∀ (l : List (Nat × Job)) (s : RunState)
    (x : Nat × Nat × Nat), x ∈ s.ticks → x ∈ (setupGo beh l s).2.ticks := by
  intro l
  induction l with
  | nil => intro s x hx; exact hx
  | cons p rest ih =>
    intro s x hx
    obtain ⟨i, job⟩ := p
    simp only [setupGo]
    split
    · exact ih _ x hx
    · exact ih _ x (List.mem_cons_of_mem _ hx)

theorem setupGo_timers_mem (beh : Beh) : ∀ (l : List (Nat × Job)) (s : RunState)
    (t : Timer), t ∈ s.timers → t ∈ (setupGo beh l s).2.timers := by
  intro l
  induction l with
  | nil => intro s t ht; exact ht
  | cons p rest ih =>
    intro s t ht
    obtain ⟨i, job⟩ := p
    simp only [setupGo]
    split
    · exact ih _ t (List.mem_append_left _ ht)
    · exact ih _ t (List.mem_append_left _ ht)

theorem step_ticks_mem (beh : Beh) (s : RunState) (x : Nat × Nat × Nat)
    (hx : x ∈ s.ticks) : x ∈ (step beh s).ticks := by
  unfold step
  split
  · exact hx
  · split
    · rw [(route_frame _).2.2.2.1]
      exact List.mem_cons_of_mem _ hx
    · rw [(route_frame _).2.2.2.1]
      exact List.mem_cons_of_mem _ hx

theorem simulate_ticks_mem (beh : Beh) (jobs : List Job) (fuel : Nat)
    (x : Nat × Nat × Nat) (hx : x ∈ (simulate beh jobs 0).ticks) :
    x ∈ (simulate beh jobs fuel).ticks := by
  induction fuel with
  | zero => exact hx
  | succ n ih => exact step_ticks_mem beh _ x ih

theorem getD_replicate_zero : ∀ (n i : Nat), (List.replicate n (0 : Nat)).getD i 0 = 0 := by
  intro n
  induction n with
  | zero => intro i; cases i <;> rfl
  | succ m ih =>
    intro i
    cases i with
    | zero => rfl
    | succ k => exact ih k

/-- During the setup block, every job whose defer is falsy is started on the
spot: its first tick (tick count 0, at the setup block's clock) is recorded
and an interval timer for it is armed. -/
theorem setupGo_records_tick (beh : Beh) :
    ∀ (l : List (Nat × Job)) (s : RunState) (i : Nat) (job : Job),
      (i, job) ∈ l → truthy job.defer = false →
      List.Pairwise (fun a b : Nat × Job => a.1 < b.1) l →
      s.counts.getD i 0 = 0 →
      (s.now, i, 0) ∈ (setupGo beh l s).2.ticks ∧
      ∃ t ∈ (setupGo beh l s).2.timers, t.jobIdx = i ∧ t.isInterval = true := by
  intro l
  induction l with
  | nil => intro s i job hmem; exact absurd hmem (List.not_mem_nil _)
  | cons p rest ih =>
    intro s i job hmem hdef hpw hcnt
    obtain ⟨m, job0⟩ := p
    rcases List.mem_cons.mp hmem with heq | hmem2
    · injection heq with h1 h2
      subst h1; subst h2
      simp only [setupGo, hdef, Bool.false_eq_true, if_false]
      constructor
      · refine setupGo_ticks_mem beh rest _ _ ?_
        show (s.now, i, 0) ∈ (s.now, i, s.counts.getD i 0) :: s.ticks
        rw [hcnt]
        exact List.mem_cons_self _ _
      · refine ⟨⟨s.nextId, i, s.now + job.interval, true, job.interval⟩,
          setupGo_timers_mem beh rest _ _ ?_, rfl, rfl⟩
        show _ ∈ s.timers ++ [Timer.mk s.nextId i (s.now + job.interval) true job.interval]
        exact List.mem_append_right _ (List.mem_singleton.mpr rfl)
    · have hmi : m ≠ i := by
        have := (List.pairwise_cons.mp hpw).1 (i, job) hmem2
        exact Nat.ne_of_lt this
      have hpw2 := (List.pairwise_cons.mp hpw).2
      simp only [setupGo]
      split
      · exact ih _ i job hmem2 hdef hpw2 hcnt
      · refine ih _ i job hmem2 hdef hpw2 ?_
        show ((s.counts.set m (s.counts.getD m 0 + 1)).getD i 0) = 0
        rw [List.getD_eq_getD_get?, List.get?_set_ne _ _ hmi, ← List.getD_eq_getD_get?]
        exact hcnt

/-- Invariant for a deferred job: every active timer belonging to the job is
due no earlier than `dv`, and every tick the job has received happened no
earlier than `dv`. -/
def DeferInv (j dv : Nat) (s : RunState) : Prop :=
  (∀ t ∈ s.timers, t.jobIdx = j → dv ≤ t.fireAt) ∧
  (∀ r ∈ s.ticks, r.2.1 = j → dv ≤ r.1)

theorem fail_deferInv {j dv : Nat} (e : Err) (s : RunState) (h : DeferInv j dv s) :
    DeferInv j dv (fail e s) := by
  refine ⟨?_, h.2⟩
  intro t ht hj
  exact h.1 t (List.mem_filter.mp ht).1 hj

theorem doTick_deferInv {j dv : Nat} (beh : Beh) (j' : Nat) (s : RunState)
    (h : DeferInv j dv s) (hnow : j' = j → dv ≤ s.now) :
    DeferInv j dv (doTick beh j' s).2 := by
  refine ⟨h.1, ?_⟩
  intro r hr hj
  rcases List.mem_cons.mp hr with heq | hmem
  · subst heq
    exact hnow hj
  · exact h.2 r hmem hj

theorem startJob_deferInv {j dv : Nat} (beh : Beh) (j' interval : Nat) (s : RunState)
    (h : DeferInv j dv s) (hnow : j' = j → dv ≤ s.now) :
    DeferInv j dv (startJob beh j' interval s).2 := by
  refine doTick_deferInv beh j' _ ⟨?_, h.2⟩ hnow
  intro t ht hj
  rcases List.mem_append.mp ht with hl | hr
  · exact h.1 t hl hj
  · rw [List.mem_singleton.mp hr] at hj ⊢
    exact Nat.le_trans (hnow hj) (Nat.le_add_right _ _)

theorem route_deferInv {j dv : Nat} (p : Option Err × RunState)
    (h : DeferInv j dv p.2) : DeferInv j dv (route p) := by
  obtain ⟨e?, s2⟩ := p
  cases e? with
  | none => exact h
  | some e => exact fail_deferInv e s2 h

theorem step_deferInv {j dv : Nat} (beh : Beh) (s : RunState) (h : DeferInv j dv s) :
    DeferInv j dv (step beh s) := by
  unfold step
  split
  · exact h
  next t heq =>
    have htm : t ∈ s.timers := minTimer_mem s.timers t heq
    have hfire : t.jobIdx = j → dv ≤ t.fireAt := h.1 t htm
    split
    · refine route_deferInv _ (doTick_deferInv beh t.jobIdx _ ⟨?_, h.2⟩ hfire)
      intro u hu hj
      obtain ⟨u0, hu0, hequ⟩ := List.mem_map.mp hu
      by_cases hid : u0.id = t.id
      · rw [if_pos hid] at hequ
        subst hequ
        exact Nat.le_trans (h.1 u0 hu0 hj) (Nat.le_add_right _ _)
      · rw [if_neg hid] at hequ
        subst hequ
        exact h.1 u0 hu0 hj
    · refine route_deferInv _ (startJob_deferInv beh t.jobIdx t.period _ ⟨?_, h.2⟩ hfire)
      intro u hu hj
      exact h.1 u (List.mem_filter.mp hu).1 hj

theorem setupGo_deferInv {j dv : Nat} (beh : Beh) :
    ∀ (l : List (Nat × Job)) (s : RunState),
      DeferInv j dv s →
      (∀ p ∈ l, p.1 = j → truthy p.2.defer = true ∧ p.2.defer.getD 0 = dv) →
      DeferInv j dv (setupGo beh l s).2 := by
  intro l
  induction l with
  | nil => intro s h _; exact h
  | cons p rest ih =>
    intro s h hl
    obtain ⟨m, job0⟩ := p
    simp only [setupGo]
    split
    next hdef =>
      refine ih _ ⟨?_, h.2⟩ (fun q hq => hl q (List.mem_cons_of_mem _ hq))
      intro t ht hj
      rcases List.mem_append.mp ht with htl | htr
      · exact h.1 t htl hj
      · rw [List.mem_singleton.mp htr] at hj ⊢
        have := (hl (m, job0) (List.mem_cons_self _ _) hj).2
        show dv ≤ s.now + job0.defer.getD 0
        rw [this]
        exact Nat.le_add_left _ _
    next hdef =>
      have hmj : m ≠ j := by
        intro hcon
        exact hdef (hl (m, job0) (List.mem_cons_self _ _) hcon).1
      refine ih _ (startJob_deferInv beh m job0.interval s h
        (fun hc => absurd hc hmj)) (fun q hq => hl q (List.mem_cons_of_mem _ hq))

theorem foldl_fail_deferInv {j dv : Nat} (es : List Err) :
    ∀ s : RunState, DeferInv j dv s →
      DeferInv j dv (es.foldl (fun s e => fail e s) s) := by
  induction es with
  | nil => intro s h; exact h
  | cons e rest ih => intro s h; exact ih (fail e s) (fail_deferInv e s h)

theorem simulate_deferInv {j dv : Nat} (beh : Beh) (jobs : List Job) (fuel : Nat)
    (hsetup : ∀ p ∈ enumJobs 0 (initState jobs).copies, p.1 = j →
      truthy p.2.defer = true ∧ p.2.defer.getD 0 = dv) :
    DeferInv j dv (simulate beh jobs fuel) := by
  induction fuel with
  | zero =>
    show DeferInv j dv (setup beh jobs)
    rw [setup]
    refine foldl_fail_deferInv _ _ ?_
    exact setupGo_deferInv beh _ _ ⟨fun t ht => absurd ht (List.not_mem_nil t),
      fun r hr => absurd hr (List.not_mem_nil r)⟩ hsetup
  | succ n ih => exact step_deferInv beh _ ih

/-- C7: in `run`, a job with a (truthy) defer receives no tick earlier than
its defer duration — its interval timer is only armed once the defer
elapses, so every one of its ticks, at any point of the run, happens at a
time at least the defer; a job whose defer is absent (or `0`, which is
falsy) is started during the synchronous setup itself: its first tick
(count 0) happens at time 0 and an interval timer for it is already armed
in the setup scan, before any interval has elapsed. -/
theorem run_defer_schedule (beh : Beh) (jobs : List Job) (fuel : Nat) (j : Nat) :
    (truthy ((jobs.getD j default).defer) = true →
      ∀ r ∈ (simulate beh jobs fuel).ticks, r.2.1 = j →
        ((jobs.getD j default).defer).getD 0 ≤ r.1) ∧
    (j < jobs.length → truthy ((jobs.getD j default).defer) = false →
      (0, j, 0) ∈ (simulate beh jobs fuel).ticks ∧
      ∃ t ∈ (setupScan beh jobs).2.timers, t.jobIdx = j ∧ t.isInterval = true) := by
  constructor
  · intro hj r hr hrj
    refine (simulate_deferInv beh jobs fuel ?_).2 r hr hrj
    intro p hp hpj
    obtain ⟨-, hget⟩ := enumJobs_mem _ 0 p.1 p.2 hp
    rw [Nat.sub_zero, hpj] at hget
    have hget2 : (jobs.map fun x => { x with status := some Status.pending }).get? j =
        some p.2 := hget
    rw [List.get?_map] at hget2
    obtain ⟨jo, hjo, hfo⟩ := Option.map_eq_some'.mp hget2
    have hgd : jobs.getD j default = jo := by
      rw [List.getD_eq_getD_get?, hjo]
      rfl
    rw [hgd] at hj ⊢
    rw [← hfo]
    exact ⟨hj, rfl⟩
  · intro hlen hj
    cases hjo : jobs.get? j with
    | none =>
      have := List.get?_eq_none.mp hjo
      omega
    | some jo =>
      have hgd : jobs.getD j default = jo := by
        rw [List.getD_eq_getD_get?, hjo]
        rfl
      have hgetc : (initState jobs).copies.get? j =
          some { jo with status := some Status.pending } := by
        have hc : (initState jobs).copies =
            jobs.map (fun x => { x with status := some Status.pending }) := rfl
        rw [hc, List.get?_map, hjo]
        rfl
      have hmem := enumJobs_mem_of_get? (initState jobs).copies 0 j _ hgetc
      rw [Nat.zero_add] at hmem
      have hdef : truthy ({ jo with status := some Status.pending } : Job).defer = false := by
        rw [hgd] at hj
        exact hj
      have hrec := setupGo_records_tick beh (enumJobs 0 (initState jobs).copies)
        (initState jobs) j _ hmem hdef (enumJobs_pairwise _ 0)
        (getD_replicate_zero jobs.length j)
      refine ⟨?_, hrec.2⟩
      refine simulate_ticks_mem beh jobs fuel _ ?_
      show (0, j, 0) ∈
        ((setupScan beh jobs).1.foldl (fun s e => fail e s) (setupScan beh jobs).2).ticks
      rw [(foldl_fail_frame _ _).2.2.2]
      exact hrec.1

/-- C7 witness: an un-deferred job ticks at time 0 right at setup; a job
with `defer = 5` gets its first tick at time 5, no earlier than its defer. -/
theorem run_defer_schedule_witness :
    (0, 0, 0) ∈ (simulate (fun _ _ => Except.ok ()) [{ name := "U", interval := 2 }] 0).ticks ∧
    (5 : Nat) ≤ 5 :=
  ⟨((run_defer_schedule (fun _ _ => Except.ok ()) [{ name := "U", interval := 2 }] 0 0).2
      (by decide) rfl).1,
   (run_defer_schedule (fun _ _ => Except.ok ())
      [{ name := "B", interval := 1, defer := some 5 }] 1 0).1 rfl (5, 0, 0) (by decide) rfl⟩

end Cycle
